import Mathlib

/-!
Verification of the `aiadvent` agent strategies against their specification.

This file gives a shallow embedding of the parts of the repository that the
checked properties concern:

* `ContextCompressor` (src/aiadvent/agent/context_compressor.py): hybrid-window
  context compression with incremental batch summarization.
* `StickyFactsManager` (src/aiadvent/agent/sticky_facts.py): fact extraction
  with a wholesale store replacement on parse success.
* `BranchingManager` (src/aiadvent/agent/branching.py) together with the
  persistence operations of `HistoryManager` (src/aiadvent/agent/history.py):
  checkpoints, branches, active-branch bookkeeping and incremental
  branch-message persistence.

External collaborators (the LLM completion service, the token counter and
`json.loads`) are modelled as injected functions, following the specification's
interface-boundary treatment.  Python lists become `List`, dicts become
insertion-ordered association lists, SQLite tables become row lists, and
fallible calls return `Except`/`Option` so that a raised exception is an
explicit error value.
-/

/-- A chat message: the `{"role": ..., "content": ...}` dicts used throughout
the repository (system / user / assistant message params). -/
structure Message where
  role : String
  content : String
deriving DecidableEq, Repr, Inhabited

/-! ## ContextCompressor (context_compressor.py) -/

/-- The mutable state of `ContextCompressor.__init__`: window and batch sizes,
the accumulated `summaries`, and the token statistics.  `tokens_saved` is an
`Int` because Python computes it as a difference that may be negative. -/
structure CompressorState where
  recent_window_size : Nat
  summary_batch_size : Nat
  summaries : List String
  tokens_saved : Int
  original_tokens : Nat
  compressed_tokens : Nat
deriving DecidableEq, Repr

/-- `[m for m in messages if m["role"] == "system"]` in `compress`. -/
def systemMessages (messages : List Message) : List Message :=
  messages.filter (fun m => m.role == "system")

/-- `[m for m in messages if m["role"] != "system"]` in `compress`. -/
def conversationMessages (messages : List Message) : List Message :=
  messages.filter (fun m => m.role != "system")

/-- Python slice `conversation_messages[:-w]`.  For `w = 0` the Python slice
`[:-0]` is `[:0]`, i.e. the empty list. -/
def sliceOld (conv : List Message) (w : Nat) : List Message :=
  if w = 0 then [] else conv.take (conv.length - w)

/-- Python slice `conversation_messages[-w:]`.  For `w = 0` the Python slice
`[-0:]` is `[0:]`, i.e. the whole list. -/
def sliceRecent (conv : List Message) (w : Nat) : List Message :=
  if w = 0 then conv else conv.drop (conv.length - w)

/-- The `for i in range(batches_needed)` loop of `compress`: each iteration
takes the batch `old_messages[len(summaries)*bs : len(summaries)*bs + bs]` and,
if it is non-empty, summarizes it via the completion service (`oracle`) and
appends the summary.  A failing completion call aborts the loop, as the Python
code has no exception handler here. -/
def summarizeBatches (oracle : List Message → Except Unit String)
    (old : List Message) (bs : Nat) :
    List String → Nat → Except Unit (List String)
  | summaries, 0 => .ok summaries
  | summaries, n + 1 =>
    let batch := (old.drop (summaries.length * bs)).take bs
    if batch.isEmpty then
      summarizeBatches oracle old bs summaries n
    else do
      let smry ← oracle batch
      summarizeBatches oracle old bs (summaries ++ [smry]) n

/-- `ContextCompressor.compress`.  The completion service behind
`_generate_summary` is the injected `oracle`; `tc` is the injected
`token_counter.count_messages`.  The result is the updated compressor state
together with the returned message list; `Except.error` models an exception
propagating out of the un-guarded completion call.

The model uses `Nat` division in `batches_needed`; Python would raise
`ZeroDivisionError` for `summary_batch_size = 0`, so theorems about the batch
loop assume `0 < summary_batch_size`. -/
def compress (cs : CompressorState) (oracle : List Message → Except Unit String)
    (tc : List Message → Nat) (messages : List Message) :
    Except Unit (CompressorState × List Message) :=
  let system_messages := systemMessages messages
  let conversation_messages := conversationMessages messages
  if conversation_messages.length ≤ cs.recent_window_size then
    .ok (cs, messages)
  else
    let old_messages := sliceOld conversation_messages cs.recent_window_size
    let recent_messages := sliceRecent conversation_messages cs.recent_window_size
    let original_tokens := tc messages
    do
      let summaries' ←
        if old_messages ≠ [] ∧ cs.summaries = [] then do
          let smry ← oracle old_messages
          pure (cs.summaries ++ [smry])
        else if cs.summaries.length * cs.summary_batch_size < old_messages.length then
          summarizeBatches oracle old_messages cs.summary_batch_size cs.summaries
            (old_messages.length / cs.summary_batch_size - cs.summaries.length)
        else
          pure cs.summaries
      let compressed :=
        system_messages ++
          (if summaries' ≠ [] then
            [⟨"system", "Previous conversation summary: " ++
                String.intercalate " " summaries'⟩]
          else []) ++
          recent_messages
      let compressed_tokens := tc compressed
      pure
        ({ cs with
            summaries := summaries'
            original_tokens := original_tokens
            compressed_tokens := compressed_tokens
            tokens_saved := (original_tokens : Int) - (compressed_tokens : Int) },
          compressed)

/-- The dictionary returned by `ContextCompressor.get_stats`.  The `ratio` is a
Python float division; it is modelled as the exact rational. -/
structure CompressionStats where
  original : Nat
  compressed : Nat
  saved : Int
  ratio : ℚ
deriving DecidableEq, Repr

/-- `ContextCompressor.get_stats`. -/
def get_stats (cs : CompressorState) : CompressionStats :=
  if cs.original_tokens = 0 then
    { original := 0, compressed := 0, saved := 0, ratio := 0 }
  else
    { original := cs.original_tokens
      compressed := cs.compressed_tokens
      saved := cs.tokens_saved
      ratio :=
        if 0 < cs.original_tokens then
          (cs.tokens_saved : ℚ) / (cs.original_tokens : ℚ) * 100
        else 0 }

/-! ## StickyFactsManager (sticky_facts.py) -/

/-- The values stored in the fact store: strings, `null`, or (for the
`decisions` category) a nested object of key-value pairs. -/
inductive FactValue where
  | str (v : String)
  | null
  | obj (kvs : List (String × String))
deriving DecidableEq, Repr

/-- `self.facts`: a JSON object modelled as an insertion-ordered association
list from category/key to value. -/
abbrev FactStore := List (String × FactValue)

/-- The `recent_messages` list built by `extract_facts`: the last six messages
(`messages[-6:]`), minus system messages, each rendered as `"role: content"`. -/
def formatRecent (messages : List Message) : List String :=
  ((messages.drop (messages.length - 6)).filter (fun m => m.role != "system")).map
    (fun m => m.role ++ ": " ++ m.content)

/-- The markdown-fence stripping applied to the completion response in
`extract_facts`: `content.strip()`, then if it starts with three backticks take
`content.split(fence)[1]`, and drop a leading `"json"` tag. -/
def stripResponse (content : String) : String :=
  let c := content.trim
  if c.startsWith "```" then
    let c := (c.splitOn "```").getD 1 ""
    if c.startsWith "json" then c.drop 4 else c
  else c

/-- `StickyFactsManager.extract_facts`.  The completion call's outcome for this
turn's prompt is the injected `oracle` (an exception from the call is
`Except.error`); Python's `json.loads` is the injected `jsonLoads`, returning
`none` where Python would raise.  The `try/except` around the call and the
parse means any failure returns the store unchanged; a successful parse
replaces the store wholesale (`self.facts = updated_facts`). -/
def extract_facts (facts : FactStore) (oracle : Except Unit String)
    (jsonLoads : String → Option FactStore) (messages : List Message) : FactStore :=
  if messages.length ≤ 1 then facts
  else
    let recent := formatRecent messages
    if recent = [] then facts
    else
      match oracle with
      | .error _ => facts
      | .ok raw =>
        match jsonLoads (stripResponse raw) with
        | none => facts
        | some updated => updated

/-- `compress` makes at least one summarization call exactly when the old
prefix is non-empty and nothing has been summarized yet (the whole-prefix
branch), or when at least one whole uncovered batch has accumulated (the
incremental branch; iterations whose batch is empty make no call). -/
def needsSummary (cs : CompressorState) (messages : List Message) : Prop :=
  let old := sliceOld (conversationMessages messages) cs.recent_window_size
  (old ≠ [] ∧ cs.summaries = []) ∨
    cs.summaries.length < old.length / cs.summary_batch_size

/-- The batch handed to the first summarization call `compress` makes: the
whole old prefix if no summary exists yet, otherwise the first uncovered
batch. -/
def firstNeededBatch (cs : CompressorState) (messages : List Message) :
    List Message :=
  let old := sliceOld (conversationMessages messages) cs.recent_window_size
  if cs.summaries = [] then old
  else (old.drop (cs.summaries.length * cs.summary_batch_size)).take
    cs.summary_batch_size

/-- The compressor state of a fresh `ContextCompressor` with
`recent_window_size = 1` and `summary_batch_size = 1`. -/
def csFresh : CompressorState :=
  { recent_window_size := 1, summary_batch_size := 1, summaries := []
    tokens_saved := 0, original_tokens := 0, compressed_tokens := 0 }

/-- A deterministic stand-in for the summarization completion service that
always succeeds. -/
def constOracle : List Message → Except Unit String := fun _ => .ok "s"

/-- The injected token counter used in concrete runs: message count. -/
def lenCounter : List Message → Nat := fun l => l.length

/-- A three-message transcript used in concrete compressor runs. -/
def msgsThree : List Message :=
  [⟨"user", "a"⟩, ⟨"assistant", "b"⟩, ⟨"user", "c"⟩]

/-- The store before the counterexample extraction: two categories present. -/
def factsTwo : FactStore :=
  [("goal", FactValue.str "ship"), ("constraints", FactValue.str "budget")]

/-- A model of `json.loads` for the counterexample run: the completion
response is syntactically valid JSON parsing to a store that holds only the
`goal` category (the model omits all other, unexercised, inputs). -/
def jsonLoadsGoalOnly : String → Option FactStore := fun _ =>
  some [("goal", FactValue.str "ship")]

/-! ## BranchingManager (branching.py) and HistoryManager persistence
(history.py) -/

/-- One entry of `self.checkpoints`: `{"name": ..., "message_index": ...}`. -/
structure CheckpointData where
  name : String
  message_index : Nat
deriving DecidableEq, Repr

/-- One entry of `self.branches`:
`{"checkpoint_id": ..., "name": ..., "messages": ...}`. -/
structure BranchData where
  checkpoint_id : String
  name : String
  messages : List Message
deriving DecidableEq, Repr

/-- A row of the `checkpoints` table (for the session under consideration). -/
structure CheckpointRow where
  checkpoint_id : String
  name : String
  message_index : Nat
deriving DecidableEq, Repr

/-- A row of the `branches` table (for the session under consideration). -/
structure BranchRow where
  branch_id : String
  checkpoint_id : String
  name : String
  is_active : Bool
deriving DecidableEq, Repr

/-- A row of the `branch_messages` table. -/
structure BranchMsgRow where
  branch_id : String
  sequence : Nat
  role : String
  content : String
deriving DecidableEq, Repr

/-- The SQLite tables touched by the branching code, restricted to one
session; each table is its rows in insertion order. -/
structure Db where
  checkpoint_rows : List CheckpointRow
  branch_rows : List BranchRow
  branch_message_rows : List BranchMsgRow
deriving DecidableEq, Repr

/-- Python dict assignment `d[k] = v`: replace the value at an existing key in
place, else append the new binding (dicts preserve insertion order). -/
def dictInsert {α : Type} (d : List (String × α)) (k : String) (v : α) :
    List (String × α) :=
  match d with
  | [] => [(k, v)]
  | (k', v') :: rest =>
    if k' = k then (k, v) :: rest else (k', v') :: dictInsert rest k v

/-- Python dict read `d[k]` / membership `k in d`. -/
def dictLookup {α : Type} (d : List (String × α)) (k : String) : Option α :=
  match d with
  | [] => none
  | (k', v) :: rest => if k' = k then some v else dictLookup rest k

/-- `HistoryManager.save_checkpoint`: inserts a checkpoint row. -/
def save_checkpoint (db : Db) (checkpoint_id name : String)
    (message_index : Nat) : Db :=
  { db with checkpoint_rows :=
      db.checkpoint_rows ++ [⟨checkpoint_id, name, message_index⟩] }

/-- `HistoryManager.save_branch`: deactivates every row of the session first
when the new row is active, then inserts the branch row. -/
def save_branch (db : Db) (branch_id checkpoint_id name : String)
    (is_active : Bool) : Db :=
  let rows :=
    if is_active then
      db.branch_rows.map (fun r => { r with is_active := false })
    else db.branch_rows
  { db with branch_rows := rows ++ [⟨branch_id, checkpoint_id, name, is_active⟩] }

/-- `HistoryManager.set_active_branch`: `UPDATE branches SET is_active = 0`
for the session, then `SET is_active = 1` for the given branch id. -/
def set_active_branch (db : Db) (branch_id : String) : Db :=
  let rows :=
    (db.branch_rows.map (fun r => { r with is_active := false })).map
      (fun r =>
        if r.branch_id = branch_id then { r with is_active := true } else r)
  { db with branch_rows := rows }

/-- `HistoryManager.save_branch_message`: `INSERT INTO branch_messages ...`.
The table declares `UNIQUE(branch_id, sequence)`, so an insert at an already
used `(branch_id, sequence)` pair raises `sqlite3.IntegrityError` and persists
nothing — modelled as `none`.  (The table's `CHECK(role IN ('user',
'assistant'))` is not modelled: the rows this manager writes carry the roles
of transcript exchange messages, and no checked property concerns that
constraint.) -/
def save_branch_message (db : Db) (branch_id : String) (sequence : Nat)
    (role content : String) : Option Db :=
  if db.branch_message_rows.any
      (fun r => r.branch_id == branch_id && r.sequence == sequence) then
    none
  else
    some { db with branch_message_rows :=
      db.branch_message_rows ++ [⟨branch_id, sequence, role, content⟩] }

/-- `HistoryManager.load_checkpoints` (`ORDER BY created_at`, which is the
insertion order of the monotone timestamps). -/
def load_checkpoints (db : Db) : List CheckpointRow :=
  db.checkpoint_rows

/-- `HistoryManager.load_branches` (`ORDER BY created_at`). -/
def load_branches (db : Db) : List BranchRow :=
  db.branch_rows

/-- `HistoryManager.load_branch_messages`: the branch's rows
(`WHERE branch_id = ?`) sorted by `sequence` (stable). -/
def load_branch_messages (db : Db) (branch_id : String) : List BranchMsgRow :=
  List.insertionSort (fun a b => a.sequence ≤ b.sequence)
    (db.branch_message_rows.filter (fun r => r.branch_id == branch_id))

/-- The in-memory state of a `BranchingManager`.  `has_history` models
`self.history_manager is not None` and `has_session` models
`self.session_id` being truthy (the persistence guards test them in
different combinations); `db` is the persistence store seen through
`HistoryManager`. -/
structure BMState where
  has_history : Bool
  has_session : Bool
  checkpoints : List (String × CheckpointData)
  branches : List (String × BranchData)
  current_branch : Option String
  checkpoint_counter : Nat
  branch_counter : Nat
  branch_saved_count : List (String × Nat)
  db : Db
deriving DecidableEq, Repr

/-- `BranchingManager.create_checkpoint`.  `timestamp` is the injected
millisecond wall clock used in the id. -/
def create_checkpoint (s : BMState) (name : String) (messages : List Message)
    (timestamp : Nat) : BMState × String :=
  let ctr := s.checkpoint_counter + 1
  let checkpoint_id := "cp_" ++ toString ctr ++ "_" ++ toString timestamp
  let message_index := messages.length
  let s1 := { s with
    checkpoint_counter := ctr
    checkpoints := dictInsert s.checkpoints checkpoint_id ⟨name, message_index⟩ }
  let s2 :=
    if s1.has_history ∧ s1.has_session then
      { s1 with db := save_checkpoint s1.db checkpoint_id name message_index }
    else s1
  (s2, checkpoint_id)

/-- `BranchingManager.create_branch`: `none` when the checkpoint id is
unknown; otherwise stores `base_messages[:checkpoint.message_index]` as the
branch's messages, initializes the branch's saved count to 0 and persists the
branch as inactive. -/
def create_branch (s : BMState) (checkpoint_id name : String)
    (base_messages : List Message) (timestamp : Nat) :
    BMState × Option String :=
  match dictLookup s.checkpoints checkpoint_id with
  | none => (s, none)
  | some cp =>
    let ctr := s.branch_counter + 1
    let branch_id := "br_" ++ toString ctr ++ "_" ++ toString timestamp
    let branch_messages := base_messages.take cp.message_index
    let s1 := { s with
      branch_counter := ctr
      branches := dictInsert s.branches branch_id
        ⟨checkpoint_id, name, branch_messages⟩
      branch_saved_count := dictInsert s.branch_saved_count branch_id 0 }
    let s2 :=
      if s1.has_history ∧ s1.has_session then
        { s1 with db := save_branch s1.db branch_id checkpoint_id name false }
      else s1
    (s2, some branch_id)

/-- `BranchingManager.switch_branch`: `none` when the branch id is unknown;
otherwise makes it current, marks it active in the store and returns a copy of
its messages. -/
def switch_branch (s : BMState) (branch_id : String) :
    BMState × Option (List Message) :=
  match dictLookup s.branches branch_id with
  | none => (s, none)
  | some bd =>
    let s1 := { s with current_branch := some branch_id }
    let s2 :=
      if s1.has_history ∧ s1.has_session then
        { s1 with db := set_active_branch s1.db branch_id }
      else s1
    (s2, some bd.messages)

/-- The `for i in range(old_len, len(messages))` loop of
`update_current_branch`: for each index `i ≥ checkpoint_index` it persists
`messages[i]` at the running saved count and increments that count.  A failing
insert (duplicate `(branch_id, sequence)`) aborts the loop, as the Python code
has no handler around `save_branch_message`. -/
def saveNewMessages (db : Db) (cur : String) (checkpoint_index : Nat)
    (msgs : List Message) (idxs : List Nat) (saved_count : Nat) :
    Option (Db × Nat) :=
  idxs.foldlM
    (fun acc i =>
      if checkpoint_index ≤ i then
        (save_branch_message acc.1 cur acc.2 (msgs.getD i default).role
          (msgs.getD i default).content).map (fun db' => (db', acc.2 + 1))
      else some acc)
    (db, saved_count)

/-- `BranchingManager.update_current_branch`.  The branch's stored message
list is replaced by a copy of `messages` whenever a current branch exists; if
a history manager is attached and the transcript grew, the new messages past
the checkpoint index are persisted at consecutive per-branch sequence numbers
starting from the branch's saved count.  `none` models an exception escaping
the method: the `KeyError` raised when the current branch's checkpoint id is
not in `self.checkpoints`, or the `sqlite3.IntegrityError` raised by an
insert at an already used `(branch_id, sequence)` pair. -/
def update_current_branch (s : BMState) (messages : List Message) :
    Option BMState :=
  match s.current_branch with
  | none => some s
  | some cur =>
    match dictLookup s.branches cur with
    | none => some s
    | some bd =>
      if s.has_history ∧ bd.messages.length < messages.length then
        match dictLookup s.checkpoints bd.checkpoint_id with
        | none => none
        | some cp =>
          match saveNewMessages s.db cur cp.message_index messages
            (List.range' bd.messages.length
              (messages.length - bd.messages.length))
            ((dictLookup s.branch_saved_count cur).getD 0) with
          | none => none
          | some r =>
            some { s with
              branches := dictInsert s.branches cur
                { bd with messages := messages }
              db := r.1
              branch_saved_count := dictInsert s.branch_saved_count cur r.2 }
      else
        some { s with
          branches := dictInsert s.branches cur { bd with messages := messages } }

/-- `BranchingManager.reset`. -/
def resetBranching (s : BMState) : BMState :=
  { s with
    checkpoints := []
    branches := []
    current_branch := none
    checkpoint_counter := 0
    branch_counter := 0
    branch_saved_count := [] }

/-- Python `str.split` for a one-character separator, on the character list
of the string. -/
def splitOnChar (sep : Char) : List Char → List (List Char)
  | [] => [[]]
  | c :: rest =>
    let r := splitOnChar sep rest
    if c = sep then [] :: r
    else (c :: r.headD []) :: r.tail

/-- Python `int(...)` on the strings the branching code feeds it: all-digit
strings parse to their value; anything else (including the out-of-range index
of `split("_")[1]`, folded in via the default `[]`) raises, i.e. `none`. -/
def digitsToNat? (l : List Char) : Option Nat :=
  if l.isEmpty then none
  else
    l.foldl
      (fun acc c =>
        acc.bind (fun n =>
          if c.isDigit then some (n * 10 + (c.toNat - 48)) else none))
      (some 0)

/-- `int(identifier.split("_")[1])` as used by `load_from_db` to restore the
checkpoint and branch counters. -/
def parseCounter? (id : String) : Option Nat :=
  digitsToNat? ((splitOnChar '_' id.data).getD 1 [])

/-- The per-row reconstruction of a branch message in `load_from_db`: only
`user` and `assistant` rows are turned into messages, any other role is
skipped. -/
def msgFromRow (r : BranchMsgRow) : Option Message :=
  if r.role = "user" then some ⟨"user", r.content⟩
  else if r.role = "assistant" then some ⟨"assistant", r.content⟩
  else none

/-- One iteration of the checkpoint-loading loop of `load_from_db`: record
the checkpoint and raise the counter; `none` models the `ValueError` of
`int(...)` on a malformed id. -/
def loadCheckpointStep (t : BMState) (cp : CheckpointRow) : Option BMState :=
  (parseCounter? cp.checkpoint_id).map (fun n =>
    { t with
      checkpoints := dictInsert t.checkpoints cp.checkpoint_id
        ⟨cp.name, cp.message_index⟩
      checkpoint_counter := max t.checkpoint_counter n })

/-- One iteration of the branch-loading loop of `load_from_db`: rows whose
checkpoint is unknown are skipped; otherwise the branch's messages are rebuilt
as `base_messages[:checkpoint_index]` plus the persisted branch messages in
sequence order, the branch marked active becomes current, and the branch
counter is raised. -/
def loadBranchStep (db : Db) (base : List Message) (t : BMState)
    (br : BranchRow) : Option BMState :=
  match dictLookup t.checkpoints br.checkpoint_id with
  | none => some t
  | some cp =>
    (parseCounter? br.branch_id).map (fun n =>
      { t with
        branches := dictInsert t.branches br.branch_id
          ⟨br.checkpoint_id, br.name,
            base.take cp.message_index ++
              (load_branch_messages db br.branch_id).filterMap msgFromRow⟩
        current_branch :=
          if br.is_active then some br.branch_id else t.current_branch
        branch_counter := max t.branch_counter n })

/-- `BranchingManager.load_from_db`: a no-op without history manager and
session; otherwise folds the persisted checkpoints and then the persisted
branches into the in-memory state.  `none` models an exception escaping the
loops. -/
def load_from_db (s : BMState) (base : List Message) : Option BMState :=
  if s.has_history ∧ s.has_session then
    match (load_checkpoints s.db).foldlM loadCheckpointStep s with
    | none => none
    | some s1 => (load_branches s.db).foldlM (loadBranchStep s.db base) s1
  else some s

/-- The branch-message row written for message `m` of branch `b` at per-branch
sequence number `k`. -/
def msgRow (b : String) (k : Nat) (m : Message) : BranchMsgRow :=
  ⟨b, k, m.role, m.content⟩

/-- The rows of the `branch_messages` table belonging to branch `b`, in
insertion order. -/
def branchLog (db : Db) (b : String) : List BranchMsgRow :=
  db.branch_message_rows.filter (fun r => r.branch_id == b)

/-- `self.branch_saved_count.get(b, 0)`. -/
def savedCount (s : BMState) (b : String) : Nat :=
  (dictLookup s.branch_saved_count b).getD 0

/-- The persistence invariant of a branch `b`: its checkpoint exists, its
stored message list reaches at least to the checkpoint index, its saved count
equals the number of messages past the checkpoint index, and its rows in the
`branch_messages` table are exactly those messages, one row per message, at
consecutive sequence numbers from 0. -/
def branchInv (s : BMState) (b : String) : Prop :=
  ∀ bd, dictLookup s.branches b = some bd →
    ∃ cp, dictLookup s.checkpoints bd.checkpoint_id = some cp ∧
      cp.message_index ≤ bd.messages.length ∧
      savedCount s b = bd.messages.length - cp.message_index ∧
      branchLog s.db b =
        (List.range' 0 (bd.messages.length - cp.message_index)).map
          (fun q => msgRow b q (bd.messages.getD (cp.message_index + q) default))

/-- A sequence of `update_current_branch` calls, one per transcript, aborting
on an exception. -/
def updateMany (s : BMState) (tss : List (List Message)) : Option BMState :=
  match tss with
  | [] => some s
  | ts :: rest =>
    match update_current_branch s ts with
    | none => none
    | some s' => updateMany s' rest

/-- A transcript extends the current branch: whenever a current branch exists
and is known, its stored messages are a prefix of the transcript. -/
def extendsCurrent (s : BMState) (msgs : List Message) : Prop :=
  ∀ cur bd, s.current_branch = some cur →
    dictLookup s.branches cur = some bd → bd.messages <+: msgs

/-- One branch operation of the kind quantified over in the prefix-immutability
claim: a `switch_branch` call, or an `update_current_branch` call whose
transcript extends the current branch. -/
inductive BStep : BMState → BMState → Prop
  | switch (s : BMState) (bid : String) : BStep s (switch_branch s bid).1
  | update (s s' : BMState) (msgs : List Message) (hext : extendsCurrent s msgs)
      (hrun : update_current_branch s msgs = some s') : BStep s s'

/-- A sequence of `switch_branch` calls (results discarded). -/
def switchMany (s : BMState) (bids : List String) : BMState :=
  bids.foldl (fun t b => (switch_branch t b).1) s

/-- The number of session branch rows with `active = true`. -/
def activeCount (db : Db) : Nat :=
  db.branch_rows.countP (fun r => r.is_active)

/-- The branch ids of the session's branch rows. -/
def branchRowIds (db : Db) : List String :=
  db.branch_rows.map (fun r => r.branch_id)

/-- The number of in-memory branches reported active by `list_branches`
(`"active": br_id == self.current_branch`). -/
def memActiveCount (s : BMState) : Nat :=
  s.branches.countP (fun p => decide (some p.1 = s.current_branch))

/-! ## Dictionary lemmas -/

/-- A concrete two-branch, two-row state for the C3 witness. -/
def sW3 : BMState :=
  { has_history := true
    has_session := true
    checkpoints := [("cp_1", ⟨"start", 0⟩)]
    branches := [("br_1_1", ⟨"cp_1", "a", []⟩), ("br_2_2", ⟨"cp_1", "b", []⟩)]
    current_branch := none
    checkpoint_counter := 1
    branch_counter := 2
    branch_saved_count := [("br_1_1", 0), ("br_2_2", 0)]
    db := ⟨[⟨"cp_1", "start", 0⟩],
      [⟨"br_1_1", "cp_1", "a", false⟩, ⟨"br_2_2", "cp_1", "b", false⟩], []⟩ }

/-- A one-checkpoint state for the C2 witness. -/
def sW2 : BMState :=
  { has_history := true
    has_session := true
    checkpoints := [("cp_1", ⟨"start", 1⟩)]
    branches := []
    current_branch := none
    checkpoint_counter := 1
    branch_counter := 0
    branch_saved_count := []
    db := ⟨[⟨"cp_1", "start", 1⟩], [], []⟩ }

/-- The base transcript for the C2 witness. -/
def baseW2 : List Message := [⟨"user", "m0"⟩, ⟨"assistant", "m1"⟩]

/-- The state reached in the C2 witness: create a branch from `cp_1`, then
switch to it. -/
def s2W2 : BMState :=
  (switch_branch (create_branch sW2 "cp_1" "alt" baseW2 7).1 "br_1_7").1

/-- The branch-message rows appended by a growing `update_current_branch`
call: one row per new index `i` in `[old_len, old_len + n)`, at sequence
number `c + (i - old_len)`, carrying `msgs[i]`. -/
def appendedRows (cur : String) (msgs : List Message) (old_len n c : Nat) :
    List BranchMsgRow :=
  List.map (fun i => msgRow cur (c + (i - old_len)) (msgs.getD i default))
    (List.range' old_len n)

/-- The starting state for the C1 witness: one checkpoint at index 1, one
current branch created from it, nothing persisted for the branch yet. -/
def sW1 : BMState :=
  { has_history := true
    has_session := true
    checkpoints := [("cp_1", ⟨"start", 1⟩)]
    branches := [("br_1_7", ⟨"cp_1", "alt", [⟨"user", "m0"⟩]⟩)]
    current_branch := some "br_1_7"
    checkpoint_counter := 1
    branch_counter := 1
    branch_saved_count := [("br_1_7", 0)]
    db := ⟨[⟨"cp_1", "start", 1⟩], [⟨"br_1_7", "cp_1", "alt", true⟩], []⟩ }

/-- The chain of growing transcripts used in the C1 witness. -/
def tssW1 : List (List Message) :=
  [[⟨"user", "m0"⟩, ⟨"user", "u1"⟩],
   [⟨"user", "m0"⟩, ⟨"user", "u1"⟩, ⟨"assistant", "a1"⟩]]

/-- The fresh manager state of the C9 witness: empty in-memory state over a
store that already holds one checkpoint, one active branch and one persisted
branch message at sequence 0. -/
def sW9 : BMState :=
  { has_history := true
    has_session := true
    checkpoints := []
    branches := []
    current_branch := none
    checkpoint_counter := 0
    branch_counter := 0
    branch_saved_count := []
    db := ⟨[⟨"cp_1", "start", 1⟩], [⟨"br_1_5", "cp_1", "alt", true⟩],
      [⟨"br_1_5", 0, "user", "x"⟩]⟩ }

/-- The base transcript of the C9 witness. -/
def baseW9 : List Message := [⟨"user", "m0"⟩]

/-- The state `load_from_db` reconstructs from `sW9` and `baseW9`. -/
def sL9 : BMState :=
  { has_history := true
    has_session := true
    checkpoints := [("cp_1", ⟨"start", 1⟩)]
    branches := [("br_1_5", ⟨"cp_1", "alt", [⟨"user", "m0"⟩, ⟨"user", "x"⟩]⟩)]
    current_branch := some "br_1_5"
    checkpoint_counter := 1
    branch_counter := 1
    branch_saved_count := []
    db := ⟨[⟨"cp_1", "start", 1⟩], [⟨"br_1_5", "cp_1", "alt", true⟩],
      [⟨"br_1_5", 0, "user", "x"⟩]⟩ }

/-- The grown transcript of the C9 witness. -/
def msgsW9 : List Message :=
  [⟨"user", "m0"⟩, ⟨"user", "x"⟩, ⟨"assistant", "y"⟩]

/-! ## Theorems -/

/-- Claim C4: for every transcript whose number of non-system (conversational)
messages is at most `recent_window_size`, `compress` returns the input message
list unchanged, with the compressor state untouched; since this holds for every
summarization oracle (including the always-failing one), no summarization call
is performed. -/
theorem compress_short_identity (cs : CompressorState)
    (oracle : List Message → Except Unit String) (tc : List Message → Nat)
    (messages : List Message)
    (h : (conversationMessages messages).length ≤ cs.recent_window_size) :
    compress cs oracle tc messages = .ok (cs, messages) := by
  unfold compress
  simp [h]

/-- Witness for C4 at a concrete short transcript. -/
theorem compress_short_identity_witness :
    (conversationMessages [⟨"user", "hi"⟩, ⟨"assistant", "hello"⟩]).length ≤
        (⟨14, 14, [], 0, 0, 0⟩ : CompressorState).recent_window_size ∧
    compress ⟨14, 14, [], 0, 0, 0⟩ (fun _ => .error ()) (fun l => l.length)
        [⟨"user", "hi"⟩, ⟨"assistant", "hello"⟩] =
      .ok (⟨14, 14, [], 0, 0, 0⟩, [⟨"user", "hi"⟩, ⟨"assistant", "hello"⟩]) :=
  ⟨by decide, compress_short_identity _ _ _ _ (by decide)⟩

/-- Claim C10: when the transcript's non-system message count is at most
`recent_window_size`, `compress` returns before touching any compression
state: `summaries`, `original_tokens`, `compressed_tokens` and `tokens_saved`
are all unchanged, so `get_stats` reports the same values after the call as
before it, and the returned payload is the input. -/
theorem compress_short_frame (cs : CompressorState)
    (oracle : List Message → Except Unit String) (tc : List Message → Nat)
    (messages : List Message) (cs' : CompressorState) (out : List Message)
    (h : (conversationMessages messages).length ≤ cs.recent_window_size)
    (hrun : compress cs oracle tc messages = .ok (cs', out)) :
    cs'.summaries = cs.summaries ∧ cs'.original_tokens = cs.original_tokens ∧
      cs'.compressed_tokens = cs.compressed_tokens ∧
      cs'.tokens_saved = cs.tokens_saved ∧
      get_stats cs' = get_stats cs ∧ out = messages := by
  unfold compress at hrun
  simp [h] at hrun
  obtain ⟨h1, h2⟩ := hrun
  subst h1; subst h2
  exact ⟨rfl, rfl, rfl, rfl, rfl, rfl⟩

/-- Witness for C10 at a concrete short transcript. -/
theorem compress_short_frame_witness :
    (conversationMessages [⟨"user", "q"⟩]).length ≤
        (⟨3, 3, ["old"], 5, 9, 4⟩ : CompressorState).recent_window_size ∧
    compress ⟨3, 3, ["old"], 5, 9, 4⟩ (fun _ => .error ()) (fun l => l.length)
        [⟨"user", "q"⟩] = .ok (⟨3, 3, ["old"], 5, 9, 4⟩, [⟨"user", "q"⟩]) ∧
    get_stats ⟨3, 3, ["old"], 5, 9, 4⟩ = get_stats ⟨3, 3, ["old"], 5, 9, 4⟩ :=
  ⟨by decide, rfl,
    (compress_short_frame ⟨3, 3, ["old"], 5, 9, 4⟩ (fun _ => .error ())
      (fun l => l.length) [⟨"user", "q"⟩] ⟨3, 3, ["old"], 5, 9, 4⟩ [⟨"user", "q"⟩]
      (by decide) rfl).2.2.2.2.1⟩

/-- Claim C8: if the summarization completion call inside `compress` fails,
`compress` propagates the error to its caller rather than returning any
payload — there is no handler around `_generate_summary`, so the error value
surfaces and no summary is fabricated and no uncompressed list returned. -/
theorem compress_error_propagates (cs : CompressorState)
    (oracle : List Message → Except Unit String) (tc : List Message → Nat)
    (messages : List Message)
    (hbs : 0 < cs.summary_batch_size)
    (hlong : cs.recent_window_size < (conversationMessages messages).length)
    (hneed : needsSummary cs messages)
    (hfail : oracle (firstNeededBatch cs messages) = .error ()) :
    compress cs oracle tc messages = .error () := by
  have hnotle : ¬ (conversationMessages messages).length ≤ cs.recent_window_size :=
    Nat.not_le.mpr hlong
  by_cases hS : cs.summaries = []
  · have hone : sliceOld (conversationMessages messages) cs.recent_window_size ≠ [] := by
      rcases hneed with ⟨h1, _⟩ | h2
      · exact h1
      · intro hnil
        rw [hnil] at h2
        simp at h2
    have hfail' : oracle (sliceOld (conversationMessages messages)
        cs.recent_window_size) = .error () := by
      have heq : firstNeededBatch cs messages =
          sliceOld (conversationMessages messages) cs.recent_window_size := by
        simp only [firstNeededBatch, if_pos hS]
      rwa [heq] at hfail
    simp [compress, hnotle, hone, hS, hfail']
  · have h2 : cs.summaries.length <
        (sliceOld (conversationMessages messages) cs.recent_window_size).length /
          cs.summary_batch_size := by
      rcases hneed with ⟨_, h1⟩ | h2
      · exact absurd h1 hS
      · exact h2
    have hlt : cs.summaries.length * cs.summary_batch_size <
        (sliceOld (conversationMessages messages) cs.recent_window_size).length := by
      have hmul : (cs.summaries.length + 1) * cs.summary_batch_size ≤
          (sliceOld (conversationMessages messages)
              cs.recent_window_size).length / cs.summary_batch_size *
            cs.summary_batch_size :=
        Nat.mul_le_mul_right _ h2
      have hdiv := Nat.div_mul_le_self
        (sliceOld (conversationMessages messages) cs.recent_window_size).length
        cs.summary_batch_size
      have := Nat.le_trans hmul hdiv
      nlinarith
    obtain ⟨m, hm⟩ : ∃ m,
        (sliceOld (conversationMessages messages) cs.recent_window_size).length /
            cs.summary_batch_size - cs.summaries.length = m + 1 :=
      ⟨_, (Nat.succ_pred_eq_of_pos (by omega)).symm⟩
    have hbatchlen : 0 <
        (((sliceOld (conversationMessages messages) cs.recent_window_size).drop
            (cs.summaries.length * cs.summary_batch_size)).take
          cs.summary_batch_size).length := by
      simp only [List.length_take, List.length_drop]
      omega
    have hbatchne :
        (((sliceOld (conversationMessages messages) cs.recent_window_size).drop
            (cs.summaries.length * cs.summary_batch_size)).take
          cs.summary_batch_size).isEmpty = false := by
      rcases h : ((sliceOld (conversationMessages messages)
          cs.recent_window_size).drop
            (cs.summaries.length * cs.summary_batch_size)).take
          cs.summary_batch_size with _ | _
      · rw [h] at hbatchlen; simp at hbatchlen
      · simp
    have hfail' : oracle
        (((sliceOld (conversationMessages messages) cs.recent_window_size).drop
            (cs.summaries.length * cs.summary_batch_size)).take
          cs.summary_batch_size) = .error () := by
      have heq : firstNeededBatch cs messages =
          ((sliceOld (conversationMessages messages) cs.recent_window_size).drop
              (cs.summaries.length * cs.summary_batch_size)).take
            cs.summary_batch_size := by
        simp only [firstNeededBatch, if_neg hS]
      rwa [heq] at hfail
    have hsb : summarizeBatches oracle
        (sliceOld (conversationMessages messages) cs.recent_window_size)
        cs.summary_batch_size cs.summaries
        ((sliceOld (conversationMessages messages)
            cs.recent_window_size).length / cs.summary_batch_size -
          cs.summaries.length) = .error () := by
      rw [hm]
      simp only [summarizeBatches, hbatchne]
      rw [if_neg (by simp)]
      rw [hfail']
      rfl
    simp [compress, hnotle, hS, hlt, hsb]

/-- Witness for C8: a failing completion call on a transcript that needs a
first summary makes `compress` return the error. -/
theorem compress_error_propagates_witness :
    0 < (⟨1, 1, [], 0, 0, 0⟩ : CompressorState).summary_batch_size ∧
    (⟨1, 1, [], 0, 0, 0⟩ : CompressorState).recent_window_size <
      (conversationMessages [⟨"user", "a"⟩, ⟨"user", "b"⟩]).length ∧
    compress ⟨1, 1, [], 0, 0, 0⟩ (fun _ => .error ()) (fun l => l.length)
      [⟨"user", "a"⟩, ⟨"user", "b"⟩] = .error () :=
  ⟨by decide, by decide,
    compress_error_propagates ⟨1, 1, [], 0, 0, 0⟩ (fun _ => .error ())
      (fun l => l.length) [⟨"user", "a"⟩, ⟨"user", "b"⟩] (by decide) (by decide)
      (by left; exact ⟨by decide, rfl⟩) rfl⟩

/-- When every completion call succeeds (`oracle b = .ok (f b)`), the batch
loop of `compress` appends exactly one summary per uncovered aligned batch,
in order: batch `L` covers `old[L*bs : (L+1)*bs]` for
`L = |summaries|, ..., |old|/bs - 1`. -/
theorem summarizeBatches_ok (f : List Message → String) (old : List Message)
    (bs : Nat) (hbs : 0 < bs) :
    ∀ (n : Nat) (S : List String), S.length + n ≤ old.length / bs →
      summarizeBatches (fun b => .ok (f b)) old bs S n =
        .ok (S ++ (List.range' S.length n).map
          (fun L => f ((old.drop (L * bs)).take bs))) := by
  intro n
  induction n with
  | zero => intro S _; simp [summarizeBatches]
  | succ m ih =>
    intro S hle
    have hlt : S.length * bs < old.length := by
      have h1 : S.length + 1 ≤ old.length / bs := by omega
      have h2 : (S.length + 1) * bs ≤ old.length / bs * bs :=
        Nat.mul_le_mul_right _ h1
      have h3 := Nat.div_mul_le_self old.length bs
      nlinarith
    have hlen : 0 < ((old.drop (S.length * bs)).take bs).length := by
      simp only [List.length_take, List.length_drop]
      omega
    have hne : ((old.drop (S.length * bs)).take bs).isEmpty = false := by
      rcases h : (old.drop (S.length * bs)).take bs with _ | _
      · rw [h] at hlen; simp at hlen
      · simp
    have hrec := ih (S ++ [f ((old.drop (S.length * bs)).take bs)])
      (by simp; omega)
    simp only [summarizeBatches, hne]
    rw [if_neg (by simp)]
    show summarizeBatches (fun b => .ok (f b)) old bs
      (S ++ [f ((old.drop (S.length * bs)).take bs)]) m = _
    rw [hrec]
    rw [List.range'_succ]
    simp [List.append_assoc]

/-- Claim C5 (amended): once a summary exists, `compress` is incremental over
aligned batches — it appends exactly one new summary per uncovered batch
`old[L*bs : (L+1)*bs]`, for `L` from `len(summaries)` up to `|old|/bs - 1`, in
order, and appends nothing when `|old|/bs ≤ len(summaries)`.  (Consequently a
repeated call on the same transcript appends `|old|/bs - len(summaries)`
summaries, which is zero in steady-state turn-by-turn growth but positive when
the first call's whole-prefix summary covered two or more batches.) -/
theorem compress_incremental_batches (cs : CompressorState)
    (f : List Message → String) (tc : List Message → Nat)
    (messages : List Message)
    (hbs : 0 < cs.summary_batch_size)
    (hne : cs.summaries ≠ [])
    (hlong : cs.recent_window_size < (conversationMessages messages).length) :
    (compress cs (fun b => .ok (f b)) tc messages).map (fun r => r.1.summaries) =
      .ok (cs.summaries ++
        (List.range' cs.summaries.length
            ((sliceOld (conversationMessages messages)
                cs.recent_window_size).length / cs.summary_batch_size -
              cs.summaries.length)).map
          (fun L => f (((sliceOld (conversationMessages messages)
              cs.recent_window_size).drop (L * cs.summary_batch_size)).take
            cs.summary_batch_size))) := by
  have hnotle : ¬ (conversationMessages messages).length ≤ cs.recent_window_size :=
    Nat.not_le.mpr hlong
  by_cases hlt : cs.summaries.length * cs.summary_batch_size <
      (sliceOld (conversationMessages messages) cs.recent_window_size).length
  · have hdivle : cs.summaries.length ≤
        (sliceOld (conversationMessages messages) cs.recent_window_size).length /
          cs.summary_batch_size :=
      (Nat.le_div_iff_mul_le hbs).mpr (Nat.le_of_lt hlt)
    have hrun := summarizeBatches_ok f
      (sliceOld (conversationMessages messages) cs.recent_window_size)
      cs.summary_batch_size hbs
      ((sliceOld (conversationMessages messages)
          cs.recent_window_size).length / cs.summary_batch_size -
        cs.summaries.length)
      cs.summaries (by omega)
    simp [compress, hnotle, hne, hlt, hrun, Except.map]
  · have hdivle : (sliceOld (conversationMessages messages)
        cs.recent_window_size).length / cs.summary_batch_size ≤
          cs.summaries.length := by
      have := Nat.div_le_div_right (c := cs.summary_batch_size)
        (Nat.le_of_not_lt hlt)
      rwa [Nat.mul_div_cancel _ hbs] at this
    have hzero : (sliceOld (conversationMessages messages)
        cs.recent_window_size).length / cs.summary_batch_size -
          cs.summaries.length = 0 := by omega
    rw [hzero]
    simp [compress, hnotle, hne, hlt, Except.map, Except.bind, bind, Bind.bind,
      pure, Except.pure]

/-- Witness for C5 (amended): with batch size 1, one prior summary and three
old messages, `compress` appends exactly the two uncovered batch summaries, in
order. -/
theorem compress_incremental_batches_witness :
    0 < (⟨1, 1, ["s0"], 0, 0, 0⟩ : CompressorState).summary_batch_size ∧
    (⟨1, 1, ["s0"], 0, 0, 0⟩ : CompressorState).summaries ≠ [] ∧
    (compress ⟨1, 1, ["s0"], 0, 0, 0⟩
        (fun b => .ok ((b.headD default).content)) (fun l => l.length)
        [⟨"user", "a"⟩, ⟨"assistant", "b"⟩, ⟨"user", "c"⟩, ⟨"user", "d"⟩]).map
      (fun r => r.1.summaries) = .ok ["s0", "b", "c"] := by
  refine ⟨by decide, by decide, ?_⟩
  have h := compress_incremental_batches ⟨1, 1, ["s0"], 0, 0, 0⟩
    (fun b => (b.headD default).content) (fun l => l.length)
    [⟨"user", "a"⟩, ⟨"assistant", "b"⟩, ⟨"user", "c"⟩, ⟨"user", "d"⟩]
    (by decide) (by decide) (by decide)
  rw [h]
  rfl

/-- Counterexample to claim C5 as stated: with window 1 and batch size 1, the
first `compress` call on `msgsThree` summarizes the whole two-message old
prefix in one call (`summaries` length 1); a second `compress` call on the very
same transcript appends another summary (`summaries` length 2), re-summarizing
the second old message that the first summary already covered.  The claim's
"repeated compress call on the same transcript never re-summarizes
(summaries list length unchanged)" is therefore false. -/
theorem compress_resummarize_cex :
    (compress csFresh constOracle lenCounter msgsThree).bind
      (fun r => (compress r.1 constOracle lenCounter msgsThree).map
        (fun r2 => (r.1.summaries.length, r2.1.summaries.length))) =
      .ok (1, 2) := rfl

/-- Claim C7: if the structured response of an `extract_facts` completion call
fails to parse (`json.loads` raises), the fact store after the call equals the
store before the call — the `except` branch returns `self.facts` untouched. -/
theorem extract_facts_parse_fail_noop (facts : FactStore) (raw : String)
    (jsonLoads : String → Option FactStore) (messages : List Message)
    (hfail : jsonLoads (stripResponse raw) = none) :
    extract_facts facts (.ok raw) jsonLoads messages = facts := by
  unfold extract_facts
  by_cases h1 : messages.length ≤ 1
  · simp [h1]
  · by_cases h2 : formatRecent messages = []
    · simp [h1, h2]
    · simp [h1, h2, hfail]

/-- Witness for C7: an unparseable response leaves a concrete store intact. -/
theorem extract_facts_parse_fail_noop_witness :
    (fun _ => (none : Option FactStore)) (stripResponse "not json") = none ∧
    extract_facts [("goal", FactValue.str "ship")] (.ok "not json")
        (fun _ => none) [⟨"user", "hi"⟩, ⟨"assistant", "yo"⟩] =
      [("goal", FactValue.str "ship")] :=
  ⟨rfl, extract_facts_parse_fail_noop [("goal", FactValue.str "ship")]
    "not json" (fun _ => none) [⟨"user", "hi"⟩, ⟨"assistant", "yo"⟩] rfl⟩

/-- Claim C6 (amended): on a successful extraction the fact store is replaced
wholesale by the parsed response (`self.facts = updated_facts`); previously
stored categories/keys survive only if the response includes them — the
preservation of old keys is requested in the prompt, not enforced by code.  On
any failure the store is unchanged. -/
theorem extract_facts_replace (facts : FactStore) (raw : String)
    (jsonLoads : String → Option FactStore) (messages : List Message)
    (updated : FactStore)
    (hlen : 1 < messages.length)
    (hrecent : formatRecent messages ≠ [])
    (hparse : jsonLoads (stripResponse raw) = some updated) :
    extract_facts facts (.ok raw) jsonLoads messages = updated := by
  unfold extract_facts
  simp [Nat.not_le.mpr hlen, hrecent, hparse]

/-- Witness for C6 (amended) at a concrete store and response. -/
theorem extract_facts_replace_witness :
    1 < ([⟨"user", "hi"⟩, ⟨"assistant", "yo"⟩] : List Message).length ∧
    formatRecent [⟨"user", "hi"⟩, ⟨"assistant", "yo"⟩] ≠ [] ∧
    extract_facts [("goal", FactValue.str "ship"),
        ("constraints", FactValue.str "budget")] (.ok "resp")
      (fun _ => some [("goal", FactValue.str "ship")])
      [⟨"user", "hi"⟩, ⟨"assistant", "yo"⟩] = [("goal", FactValue.str "ship")] :=
  ⟨by decide, by decide,
    extract_facts_replace _ "resp" _ _ _ (by decide) (by decide) rfl⟩

/-- Counterexample to claim C6 as stated: a successful extraction whose
syntactically valid response omits the previously stored `constraints`
category removes that category from the store — `extract_facts` replaces
`self.facts` wholesale with the parsed response, so a stored key is lost
without being explicitly overwritten. -/
theorem extract_facts_drop_cex :
    (factsTwo.lookup "constraints").isSome = true ∧
    ((extract_facts factsTwo (.ok "goal-only") jsonLoadsGoalOnly
        [⟨"user", "hi"⟩, ⟨"assistant", "yo"⟩]).lookup "constraints").isSome
      = false := by
  constructor
  · rfl
  · rfl

theorem dictLookup_dictInsert_self {α : Type} (d : List (String × α))
    (k : String) (v : α) : dictLookup (dictInsert d k v) k = some v := by
  induction d with
  | nil => simp [dictInsert, dictLookup]
  | cons p rest ih =>
    obtain ⟨k', v'⟩ := p
    by_cases h : k' = k
    · simp [dictInsert, dictLookup, h]
    · simp [dictInsert, dictLookup, h, ih]

theorem dictLookup_dictInsert_ne {α : Type} (d : List (String × α))
    (k k' : String) (v : α) (h : k' ≠ k) :
    dictLookup (dictInsert d k v) k' = dictLookup d k' := by
  have hkk : ¬ k = k' := fun he => h he.symm
  induction d with
  | nil => simp [dictInsert, dictLookup, hkk]
  | cons p rest ih =>
    obtain ⟨k'', v''⟩ := p
    by_cases h2 : k'' = k
    · subst h2
      simp [dictInsert, dictLookup, hkk]
    · by_cases h3 : k'' = k'
      · simp [dictInsert, dictLookup, h2, h3, h]
      · simp [dictInsert, dictLookup, h2, h3, ih]

theorem branchRowIds_set_active (db : Db) (bid : String) :
    branchRowIds (set_active_branch db bid) = branchRowIds db := by
  simp only [branchRowIds, set_active_branch, List.map_map]
  apply List.map_congr_left
  intro r _
  by_cases h : r.branch_id = bid <;> simp [h]

theorem countP_eq_key_le_one {l : List String} (h : l.Nodup) (b : String) :
    l.countP (fun x => decide (x = b)) ≤ 1 := by
  induction l with
  | nil => simp
  | cons a rest ih =>
    rw [List.nodup_cons] at h
    rw [List.countP_cons]
    by_cases hab : a = b
    · subst hab
      have hz : rest.countP (fun x => decide (x = a)) = 0 := by
        rw [List.countP_eq_zero]
        intro x hx
        simp only [decide_eq_true_eq]
        intro he
        subst he
        exact h.1 hx
      rw [hz]
      simp
    · have hr := ih h.2
      simp only [hab, decide_eq_true_eq, if_false]
      simpa using hr

theorem activeCount_set_active (db : Db) (bid : String)
    (h : (branchRowIds db).Nodup) :
    activeCount (set_active_branch db bid) ≤ 1 := by
  have hcnt : activeCount (set_active_branch db bid) =
      db.branch_rows.countP (fun r => decide (r.branch_id = bid)) := by
    simp only [activeCount, set_active_branch, List.countP_map]
    apply List.countP_congr
    intro r _
    by_cases hb : r.branch_id = bid <;> simp [Function.comp, hb]
  rw [hcnt]
  have hmap : db.branch_rows.countP (fun r => decide (r.branch_id = bid)) =
      (branchRowIds db).countP (fun x => decide (x = bid)) := by
    simp only [branchRowIds, List.countP_map]
    rfl
  rw [hmap]
  exact countP_eq_key_le_one h bid

theorem switch_branch_branches (s : BMState) (b : String) :
    ((switch_branch s b).1).branches = s.branches := by
  unfold switch_branch
  cases dictLookup s.branches b with
  | none => rfl
  | some bd =>
    simp only
    split <;> rfl

theorem switch_branch_ids (s : BMState) (b : String) :
    branchRowIds ((switch_branch s b).1).db = branchRowIds s.db := by
  unfold switch_branch
  cases dictLookup s.branches b with
  | none => rfl
  | some bd =>
    simp only
    split
    · exact branchRowIds_set_active s.db b
    · rfl

theorem switch_branch_active_le_one (s : BMState) (b : String)
    (hnodup : (branchRowIds s.db).Nodup) (hact : activeCount s.db ≤ 1) :
    activeCount ((switch_branch s b).1).db ≤ 1 := by
  unfold switch_branch
  cases dictLookup s.branches b with
  | none => exact hact
  | some bd =>
    simp only
    split
    · exact activeCount_set_active s.db b hnodup
    · exact hact

theorem memActiveCount_le_one (t : BMState)
    (h : (t.branches.map Prod.fst).Nodup) : memActiveCount t ≤ 1 := by
  unfold memActiveCount
  cases hc : t.current_branch with
  | none => simp
  | some c =>
    have hcongr : t.branches.countP (fun p => decide (some p.1 = some c)) =
        t.branches.countP (fun p => decide (p.1 = c)) := by
      apply List.countP_congr
      intro p _
      simp
    rw [hcongr]
    have hmap : t.branches.countP (fun p => decide (p.1 = c)) =
        (t.branches.map Prod.fst).countP (fun x => decide (x = c)) := by
      simp only [List.countP_map]
      rfl
    rw [hmap]
    exact countP_eq_key_le_one h c

theorem switchMany_inv (bids : List String) :
    ∀ s : BMState, (branchRowIds s.db).Nodup → activeCount s.db ≤ 1 →
      (branchRowIds (switchMany s bids).db).Nodup ∧
        activeCount (switchMany s bids).db ≤ 1 ∧
        (switchMany s bids).branches = s.branches := by
  induction bids with
  | nil => intro s h1 h2; exact ⟨h1, h2, rfl⟩
  | cons b rest ih =>
    intro s h1 h2
    have hstep1 : (branchRowIds ((switch_branch s b).1).db).Nodup := by
      rw [switch_branch_ids]; exact h1
    have hstep2 : activeCount ((switch_branch s b).1).db ≤ 1 :=
      switch_branch_active_le_one s b h1 h2
    have hrec := ih ((switch_branch s b).1) hstep1 hstep2
    refine ⟨hrec.1, hrec.2.1, ?_⟩
    rw [show switchMany s (b :: rest) = switchMany ((switch_branch s b).1) rest
      from rfl]
    rw [hrec.2.2, switch_branch_branches]

/-- Claim C3: after any sequence of `switch_branch` calls within one session,
at most one branch is active — the in-memory state reports at most one branch
as current (`list_branches` marks at most one row active), and among the
persisted branch rows of the session at most one has `active = true`.  The
hypotheses say the starting state is well formed: branch ids are unique and at
most one persisted row is active. -/
theorem switch_branch_at_most_one_active (s : BMState) (bids : List String)
    (hnodup : (branchRowIds s.db).Nodup)
    (hact : activeCount s.db ≤ 1)
    (hkeys : (s.branches.map Prod.fst).Nodup) :
    activeCount (switchMany s bids).db ≤ 1 ∧
      memActiveCount (switchMany s bids) ≤ 1 := by
  have h := switchMany_inv bids s hnodup hact
  refine ⟨h.2.1, ?_⟩
  apply memActiveCount_le_one
  rw [h.2.2]
  exact hkeys

/-- Witness for C3: two switches (one to an unknown id in between) leave at
most one active row and at most one in-memory current branch. -/
theorem switch_branch_at_most_one_active_witness :
    (branchRowIds sW3.db).Nodup ∧ activeCount sW3.db ≤ 1 ∧
    (sW3.branches.map Prod.fst).Nodup ∧
    activeCount (switchMany sW3 ["br_2_2", "nope", "br_1_1"]).db ≤ 1 ∧
    memActiveCount (switchMany sW3 ["br_2_2", "nope", "br_1_1"]) ≤ 1 :=
  ⟨by decide, by decide, by decide,
    (switch_branch_at_most_one_active sW3 ["br_2_2", "nope", "br_1_1"]
      (by decide) (by decide) (by decide)).1,
    (switch_branch_at_most_one_active sW3 ["br_2_2", "nope", "br_1_1"]
      (by decide) (by decide) (by decide)).2⟩

/-- Shape of a successful `update_current_branch` call: checkpoints and the
current-branch pointer are untouched, and the branch table is either unchanged
or updated at exactly the current branch, whose messages become the new
transcript. -/
theorem update_current_branch_shape (s : BMState) (msgs : List Message)
    (s' : BMState) (hrun : update_current_branch s msgs = some s') :
    s'.checkpoints = s.checkpoints ∧ s'.current_branch = s.current_branch ∧
    (s'.branches = s.branches ∨
      ∃ cur bd, s.current_branch = some cur ∧
        dictLookup s.branches cur = some bd ∧
        s'.branches = dictInsert s.branches cur { bd with messages := msgs }) := by
  unfold update_current_branch at hrun
  split at hrun
  next hc =>
    injection hrun with h
    subst h
    exact ⟨rfl, rfl, Or.inl rfl⟩
  next cur hc =>
    split at hrun
    next hbd =>
      injection hrun with h
      subst h
      exact ⟨rfl, rfl, Or.inl rfl⟩
    next bd hbd =>
      split at hrun
      · split at hrun
        next hcp => exact absurd hrun (by simp)
        next cp hcp =>
          split at hrun
          next hsave => exact absurd hrun (by simp)
          next r hsave =>
            injection hrun with h
            subst h
            exact ⟨rfl, rfl, Or.inr ⟨cur, bd, hc, hbd, rfl⟩⟩
      · injection hrun with h
        subst h
        exact ⟨rfl, rfl, Or.inr ⟨cur, bd, hc, hbd, rfl⟩⟩

/-- Claim C2: for every checkpoint `C` (looked up at `cid`, with
`C.message_index` within the base transcript) and every branch created from it,
after any sequence of `switch_branch` calls and `update_current_branch` calls
with transcripts extending the current branch, the first `C.message_index`
messages of the branch equal the source transcript's prefix of that length. -/
theorem branch_prefix_immutable
    (s : BMState) (cid nm : String) (base : List Message) (ts : Nat)
    (cp : CheckpointData)
    (hcp : dictLookup s.checkpoints cid = some cp)
    (hlen : cp.message_index ≤ base.length)
    (s1 : BMState) (bid : String)
    (hcreate : create_branch s cid nm base ts = (s1, some bid))
    (s2 : BMState) (hsteps : Relation.ReflTransGen BStep s1 s2)
    (bd : BranchData) (hbd : dictLookup s2.branches bid = some bd) :
    bd.messages.take cp.message_index = base.take cp.message_index := by
  have hpair := Prod.ext_iff.mp hcreate
  have h1 := hpair.1
  have h2 := hpair.2
  unfold create_branch at h1 h2
  rw [hcp] at h1 h2
  simp only at h1 h2
  have hbidval : bid = "br_" ++ toString (s.branch_counter + 1) ++ "_" ++
      toString ts := by
    exact (Option.some.inj h2).symm
  have hbranches : s1.branches =
      dictInsert s.branches bid ⟨cid, nm, base.take cp.message_index⟩ := by
    rw [hbidval, ← h1]
    split <;> rfl
  have hinit : ∀ bd0, dictLookup s1.branches bid = some bd0 →
      cp.message_index ≤ bd0.messages.length ∧
      bd0.messages.take cp.message_index = base.take cp.message_index := by
    intro bd0 h0
    rw [hbranches, dictLookup_dictInsert_self] at h0
    injection h0 with h0e
    subst h0e
    constructor
    · simp [List.length_take]
      omega
    · simp [List.take_take]
  have hfinal : ∀ bd0, dictLookup s2.branches bid = some bd0 →
      cp.message_index ≤ bd0.messages.length ∧
      bd0.messages.take cp.message_index = base.take cp.message_index := by
    clear hbd
    induction hsteps with
    | refl => exact hinit
    | tail hpre hstep ih =>
      cases hstep with
      | switch b =>
        rw [switch_branch_branches]
        exact ih
      | update t' msgs hext hrun =>
        intro bd0 h0
        obtain ⟨hcps, hcur, hbr⟩ := update_current_branch_shape _ msgs _ hrun
        rcases hbr with he | ⟨cur, bdc, hc, hlk, he⟩
        · rw [he] at h0
          exact ih bd0 h0
        · by_cases hbc : bid = cur
          · subst hbc
            rw [he, dictLookup_dictInsert_self] at h0
            injection h0 with h0e
            subst h0e
            have hold := ih bdc hlk
            obtain ⟨tl, htl⟩ := hext bid bdc hc hlk
            constructor
            · simp only
              rw [← htl, List.length_append]
              omega
            · simp only
              rw [← htl, List.take_append_of_le_length hold.1]
              exact hold.2
          · rw [he, dictLookup_dictInsert_ne _ _ _ _ hbc] at h0
            exact ih bd0 h0
  exact (hfinal bd hbd).2

/-- Witness for C2: after creating a branch at checkpoint index 1 and
switching to it, the first message of the branch is the base transcript's
first message. -/
theorem branch_prefix_immutable_witness :
    dictLookup sW2.checkpoints "cp_1" = some ⟨"start", 1⟩ ∧
    (⟨"start", 1⟩ : CheckpointData).message_index ≤ baseW2.length ∧
    create_branch sW2 "cp_1" "alt" baseW2 7 =
      ((create_branch sW2 "cp_1" "alt" baseW2 7).1, some "br_1_7") ∧
    dictLookup s2W2.branches "br_1_7" =
      some ⟨"cp_1", "alt", [⟨"user", "m0"⟩]⟩ ∧
    (⟨"cp_1", "alt", [⟨"user", "m0"⟩]⟩ : BranchData).messages.take 1 =
      baseW2.take 1 :=
  ⟨rfl, by decide, rfl, rfl,
    branch_prefix_immutable sW2 "cp_1" "alt" baseW2 7 ⟨"start", 1⟩ rfl
      (by decide) (create_branch sW2 "cp_1" "alt" baseW2 7).1 "br_1_7" rfl
      s2W2 (Relation.ReflTransGen.single (BStep.switch _ "br_1_7"))
      ⟨"cp_1", "alt", [⟨"user", "m0"⟩]⟩ rfl⟩

/-- Characterization of the persistence loop over the index range
`[i0, i0 + n)` when every index is at or past the checkpoint index: each index
`i` is persisted once, at sequence number `c + (i - i0)`, and the final count
is `c + n`. -/
theorem saveNewMessages_range' (cur : String) (ci : Nat) (msgs : List Message) :
    ∀ (n i0 : Nat) (db : Db) (c : Nat), ci ≤ i0 →
      (∀ r ∈ db.branch_message_rows, r.branch_id = cur → r.sequence < c) →
      saveNewMessages db cur ci msgs (List.range' i0 n) c =
        some (Db.mk db.checkpoint_rows db.branch_rows
          (db.branch_message_rows ++ appendedRows cur msgs i0 n c),
          c + n) := by
  intro n
  induction n with
  | zero =>
    intro i0 db c h _
    simp [saveNewMessages, appendedRows]
  | succ m ih =>
    intro i0 db c h hfresh
    rw [List.range'_succ]
    have hany : db.branch_message_rows.any
        (fun r => r.branch_id == cur && r.sequence == c) = false := by
      rw [List.any_eq_false]
      intro r hr
      simp only [Bool.and_eq_true, beq_iff_eq, not_and]
      intro hid heq
      have := hfresh r hr hid
      omega
    have hsave : save_branch_message db cur c (msgs.getD i0 default).role
        (msgs.getD i0 default).content =
        some (Db.mk db.checkpoint_rows db.branch_rows
          (db.branch_message_rows ++ [msgRow cur c (msgs.getD i0 default)])) := by
      simp [save_branch_message, hany, msgRow]
    have hstep : saveNewMessages db cur ci msgs (i0 :: List.range' (i0 + 1) m) c =
        saveNewMessages
          (Db.mk db.checkpoint_rows db.branch_rows
            (db.branch_message_rows ++ [msgRow cur c (msgs.getD i0 default)]))
          cur ci msgs (List.range' (i0 + 1) m) (c + 1) := by
      simp only [saveNewMessages, List.foldlM_cons]
      rw [if_pos h, hsave]
      rfl
    have hfresh' : ∀ r ∈ db.branch_message_rows ++
        [msgRow cur c (msgs.getD i0 default)], r.branch_id = cur →
        r.sequence < c + 1 := by
      intro r hr hid
      rw [List.mem_append] at hr
      rcases hr with hr | hr
      · have := hfresh r hr hid
        omega
      · rw [List.mem_singleton] at hr
        subst hr
        show c < c + 1
        omega
    rw [hstep, ih (i0 + 1) _ (c + 1) (by omega) hfresh']
    refine congrArg some (Prod.ext ?_ (by simp; omega))
    simp only [appendedRows]
    have hmaps : List.map
        (fun i => msgRow cur (c + 1 + (i - (i0 + 1))) (msgs.getD i default))
        (List.range' (i0 + 1) m) =
        List.map (fun i => msgRow cur (c + (i - i0)) (msgs.getD i default))
          (List.range' (i0 + 1) m) := by
      apply List.map_congr_left
      intro i hi
      rw [List.mem_range'_1] at hi
      have harith : c + 1 + (i - (i0 + 1)) = c + (i - i0) := by omega
      rw [harith]
    simp only [hmaps, List.map_cons, List.append_assoc, List.singleton_append,
      Nat.sub_self, Nat.add_zero]
    rw [List.range'_succ, List.map_cons]
    simp [msgRow]

/-- One successful `update_current_branch` call with a transcript extending
the current branch, on a state satisfying the persistence invariant: the
branch's messages become the transcript, each new message is appended to the
branch-message table exactly once at the next sequence numbers, and the
invariant is re-established. -/
theorem update_step (s : BMState) (cur : String) (bd : BranchData)
    (msgs : List Message)
    (hcur : s.current_branch = some cur)
    (hbd : dictLookup s.branches cur = some bd)
    (hinv : branchInv s cur)
    (hhist : s.has_history = true)
    (hpre : bd.messages <+: msgs) :
    ∃ s', update_current_branch s msgs = some s' ∧
      s'.current_branch = some cur ∧
      s'.has_history = true ∧
      dictLookup s'.branches cur = some ⟨bd.checkpoint_id, bd.name, msgs⟩ ∧
      branchInv s' cur ∧
      s.db.branch_message_rows <+: s'.db.branch_message_rows := by
  obtain ⟨cp, hcp, hle, hsc, hlog⟩ := hinv bd hbd
  obtain ⟨tl, htl⟩ := hpre
  by_cases hlt : bd.messages.length < msgs.length
  · -- growing call: messages are persisted
    have hscval : (dictLookup s.branch_saved_count cur).getD 0 =
        bd.messages.length - cp.message_index := hsc
    have hfresh : ∀ r ∈ s.db.branch_message_rows, r.branch_id = cur →
        r.sequence < (dictLookup s.branch_saved_count cur).getD 0 := by
      intro r hr hid
      have hrf : r ∈ branchLog s.db cur := by
        rw [branchLog, List.mem_filter]
        exact ⟨hr, by simp [hid]⟩
      rw [hlog, List.mem_map] at hrf
      obtain ⟨q, hq, hrq⟩ := hrf
      rw [List.mem_range'_1] at hq
      rw [← hrq]
      show q < _
      rw [hscval]
      omega
    have hfold := saveNewMessages_range' cur cp.message_index msgs
      (msgs.length - bd.messages.length) bd.messages.length s.db
      ((dictLookup s.branch_saved_count cur).getD 0) hle hfresh
    have hrun : update_current_branch s msgs = some
        (BMState.mk s.has_history s.has_session s.checkpoints
          (dictInsert s.branches cur ⟨bd.checkpoint_id, bd.name, msgs⟩)
          s.current_branch s.checkpoint_counter s.branch_counter
          (dictInsert s.branch_saved_count cur
            ((dictLookup s.branch_saved_count cur).getD 0 +
              (msgs.length - bd.messages.length)))
          (Db.mk s.db.checkpoint_rows s.db.branch_rows
            (s.db.branch_message_rows ++ appendedRows cur msgs
              bd.messages.length (msgs.length - bd.messages.length)
              ((dictLookup s.branch_saved_count cur).getD 0)))) := by
      simp only [update_current_branch, hcur, hbd, hcp]
      rw [if_pos ⟨hhist, hlt⟩]
      rw [hfold]
    refine ⟨_, hrun, hcur, hhist, ?_, ?_, ?_⟩
    · exact dictLookup_dictInsert_self s.branches cur
        ⟨bd.checkpoint_id, bd.name, msgs⟩
    · -- the invariant at the new state
      intro bd0 h0
      have h0' : dictLookup (dictInsert s.branches cur
          ⟨bd.checkpoint_id, bd.name, msgs⟩) cur = some bd0 := h0
      rw [dictLookup_dictInsert_self] at h0'
      injection h0' with h0e
      subst h0e
      refine ⟨cp, hcp, by simp only; omega, ?_, ?_⟩
      · show (dictLookup (dictInsert s.branch_saved_count cur
          ((dictLookup s.branch_saved_count cur).getD 0 +
            (msgs.length - bd.messages.length))) cur).getD 0 = _
        rw [dictLookup_dictInsert_self]
        simp only [Option.getD_some, hscval]
        omega
      · show List.filter (fun r => r.branch_id == cur)
          (s.db.branch_message_rows ++ appendedRows cur msgs
            bd.messages.length (msgs.length - bd.messages.length)
            ((dictLookup s.branch_saved_count cur).getD 0)) = _
        rw [List.filter_append]
        have hfilterold : List.filter (fun r => r.branch_id == cur)
            s.db.branch_message_rows =
            List.map (fun q => msgRow cur q
              (bd.messages.getD (cp.message_index + q) default))
              (List.range' 0 (bd.messages.length - cp.message_index)) := hlog
        have hfilternew : List.filter (fun r => r.branch_id == cur)
            (appendedRows cur msgs bd.messages.length
              (msgs.length - bd.messages.length)
              ((dictLookup s.branch_saved_count cur).getD 0)) =
            appendedRows cur msgs bd.messages.length
              (msgs.length - bd.messages.length)
              ((dictLookup s.branch_saved_count cur).getD 0) := by
          rw [List.filter_eq_self]
          intro r hr
          rw [appendedRows, List.mem_map] at hr
          obtain ⟨i, _, hri⟩ := hr
          rw [← hri]
          exact beq_self_eq_true cur
        rw [hfilterold, hfilternew]
        have hsplit : msgs.length - cp.message_index =
            (bd.messages.length - cp.message_index) +
              (msgs.length - bd.messages.length) := by omega
        rw [hsplit, Nat.add_comm (bd.messages.length - cp.message_index)
          (msgs.length - bd.messages.length), ← List.range'_append_1]
        rw [List.map_append]
        congr 1
        · -- old rows already match the prefix of the new transcript
          apply List.map_congr_left
          intro q hq
          rw [List.mem_range'_1] at hq
          have hqlt : cp.message_index + q < bd.messages.length := by omega
          rw [← htl, List.getD_append _ _ _ _ hqlt]
        · -- the appended rows, reindexed from message indices to sequences
          rw [appendedRows, Nat.zero_add, List.range'_eq_map_range,
            List.range'_eq_map_range, List.map_map, List.map_map]
          apply List.map_congr_left
          intro j hj
          rw [List.mem_range] at hj
          simp only [Function.comp]
          have h1 : (dictLookup s.branch_saved_count cur).getD 0 +
              (bd.messages.length + j - bd.messages.length) =
              bd.messages.length - cp.message_index + j := by
            rw [hscval]; omega
          have h2 : cp.message_index +
              (bd.messages.length - cp.message_index + j) =
              bd.messages.length + j := by omega
          rw [h1, h2]
    · -- rows only grow
      exact ⟨appendedRows cur msgs bd.messages.length
        (msgs.length - bd.messages.length)
        ((dictLookup s.branch_saved_count cur).getD 0), rfl⟩
  · -- transcript did not grow: it equals the stored messages, no persistence
    have hlenap := htl ▸ (List.length_append bd.messages tl)
    have hmsgs : msgs = bd.messages := by
      have htllen : tl.length = 0 := by omega
      rw [List.length_eq_zero] at htllen
      rw [← htl, htllen, List.append_nil]
    have hnot : ¬ (s.has_history = true ∧ bd.messages.length < msgs.length) := by
      intro hcon
      omega
    have hrun : update_current_branch s msgs = some
        (BMState.mk s.has_history s.has_session s.checkpoints
          (dictInsert s.branches cur ⟨bd.checkpoint_id, bd.name, msgs⟩)
          s.current_branch s.checkpoint_counter s.branch_counter
          s.branch_saved_count s.db) := by
      simp only [update_current_branch, hcur, hbd]
      rw [if_neg hnot]
    refine ⟨_, hrun, hcur, hhist, ?_, ?_, ⟨[], by simp⟩⟩
    · exact dictLookup_dictInsert_self s.branches cur
        ⟨bd.checkpoint_id, bd.name, msgs⟩
    · intro bd0 h0
      have h0' : dictLookup (dictInsert s.branches cur
          ⟨bd.checkpoint_id, bd.name, msgs⟩) cur = some bd0 := h0
      rw [dictLookup_dictInsert_self] at h0'
      injection h0' with h0e
      subst h0e
      refine ⟨cp, hcp, by simp only; omega, ?_, ?_⟩
      · show (dictLookup s.branch_saved_count cur).getD 0 = _
        simp only [hmsgs]
        exact hsc
      · show List.filter (fun r => r.branch_id == cur)
          s.db.branch_message_rows = _
        simp only [hmsgs]
        exact hlog

/-- Claim C1: for a current branch satisfying the persistence invariant, any
sequence of `update_current_branch` calls whose transcripts form a chain of
extensions (each transcript extends the branch's previously stored messages)
succeeds, leaves the branch holding the last transcript, only ever appends to
the branch-message table, and re-establishes the invariant: the stored rows
for the branch are exactly one row per message index at or past the
checkpoint's `message_index`, at consecutive per-branch sequence numbers
starting from 0 — each new message is persisted exactly once and no
already-saved message is ever re-persisted. -/
theorem update_current_branch_exactly_once (tss : List (List Message)) :
    ∀ (s : BMState) (cur : String) (bd : BranchData),
      s.current_branch = some cur →
      dictLookup s.branches cur = some bd →
      List.Chain' (· <+: ·) (bd.messages :: tss) →
      branchInv s cur →
      s.has_history = true →
      ∃ s', updateMany s tss = some s' ∧
        s'.current_branch = some cur ∧
        dictLookup s'.branches cur =
          some ⟨bd.checkpoint_id, bd.name, tss.getLastD bd.messages⟩ ∧
        branchInv s' cur ∧
        s.db.branch_message_rows <+: s'.db.branch_message_rows := by
  induction tss with
  | nil =>
    intro s cur bd hcur hbd _ hinv hhist
    exact ⟨s, rfl, hcur, by simpa using hbd, hinv, List.prefix_refl _⟩
  | cons ts rest ih =>
    intro s cur bd hcur hbd hchain hinv hhist
    have hchain1 := List.chain'_cons.mp hchain
    obtain ⟨s1, hrun1, hcur1, hhist1, hbd1, hinv1, hrows1⟩ :=
      update_step s cur bd ts hcur hbd hinv hhist hchain1.1
    obtain ⟨s', hrunrest, hcur', hbd', hinv', hrows'⟩ :=
      ih s1 cur ⟨bd.checkpoint_id, bd.name, ts⟩ hcur1 hbd1 hchain1.2 hinv1 hhist1
    refine ⟨s', ?_, hcur', ?_, hinv', hrows1.trans hrows'⟩
    · rw [updateMany, hrun1]
      exact hrunrest
    · rw [List.getLastD_cons]
      exact hbd'

/-- Witness for C1 at a concrete two-call run. -/
theorem update_current_branch_exactly_once_witness :
    sW1.current_branch = some "br_1_7" ∧
    dictLookup sW1.branches "br_1_7" = some ⟨"cp_1", "alt", [⟨"user", "m0"⟩]⟩ ∧
    List.Chain' (· <+: ·) ([⟨"user", "m0"⟩] :: tssW1) ∧
    branchInv sW1 "br_1_7" ∧
    sW1.has_history = true ∧
    (∃ s', updateMany sW1 tssW1 = some s' ∧
      s'.current_branch = some "br_1_7" ∧
      dictLookup s'.branches "br_1_7" =
        some ⟨"cp_1", "alt", tssW1.getLastD [⟨"user", "m0"⟩]⟩ ∧
      branchInv s' "br_1_7" ∧
      sW1.db.branch_message_rows <+: s'.db.branch_message_rows) := by
  have hinv : branchInv sW1 "br_1_7" := by
    intro bd hbd
    have hbd' : some (⟨"cp_1", "alt", [⟨"user", "m0"⟩]⟩ : BranchData) = some bd :=
      hbd
    injection hbd' with h
    subst h
    exact ⟨⟨"start", 1⟩, rfl, by decide, rfl, rfl⟩
  have hchain : List.Chain' (· <+: ·) ([⟨"user", "m0"⟩] :: tssW1) := by
    refine List.chain'_cons.mpr ⟨⟨[⟨"user", "u1"⟩], rfl⟩, ?_⟩
    refine List.chain'_cons.mpr ⟨⟨[⟨"assistant", "a1"⟩], rfl⟩, ?_⟩
    exact List.chain'_singleton _
  exact ⟨rfl, rfl, hchain, hinv, rfl,
    update_current_branch_exactly_once tssW1 sW1 "br_1_7"
      ⟨"cp_1", "alt", [⟨"user", "m0"⟩]⟩ rfl rfl hchain hinv rfl⟩

theorem foldlM_saved_count {β : Type} (f : BMState → β → Option BMState)
    (hf : ∀ t x t', f t x = some t' →
      t'.branch_saved_count = t.branch_saved_count) :
    ∀ (l : List β) (t t' : BMState), l.foldlM f t = some t' →
      t'.branch_saved_count = t.branch_saved_count := by
  intro l
  induction l with
  | nil =>
    intro t t' h
    simp only [List.foldlM_nil] at h
    injection h with he
    rw [← he]
  | cons x xs ih =>
    intro t t' h
    rw [List.foldlM_cons] at h
    cases hx : f t x with
    | none => rw [hx] at h; simp at h
    | some t1 =>
      rw [hx] at h
      have h' : xs.foldlM f t1 = some t' := h
      rw [ih t1 t' h', hf t x t1 hx]

theorem loadCheckpointStep_saved_count (t : BMState) (cp : CheckpointRow)
    (t' : BMState) (h : loadCheckpointStep t cp = some t') :
    t'.branch_saved_count = t.branch_saved_count := by
  unfold loadCheckpointStep at h
  cases hp : parseCounter? cp.checkpoint_id with
  | none => rw [hp] at h; simp at h
  | some n =>
    rw [hp] at h
    injection h with he
    rw [← he]

theorem loadBranchStep_saved_count (db : Db) (base : List Message)
    (t : BMState) (br : BranchRow) (t' : BMState)
    (h : loadBranchStep db base t br = some t') :
    t'.branch_saved_count = t.branch_saved_count := by
  unfold loadBranchStep at h
  split at h
  · injection h with he
    rw [← he]
  · cases hp : parseCounter? br.branch_id with
    | none => rw [hp] at h; simp at h
    | some n =>
      rw [hp] at h
      injection h with he
      rw [← he]

/-- `load_from_db` never touches `branch_saved_count`: the saved counts are
whatever they were before the call (for a fresh manager, the empty dict). -/
theorem load_from_db_preserves_saved_count (s : BMState) (base : List Message)
    (s' : BMState) (h : load_from_db s base = some s') :
    s'.branch_saved_count = s.branch_saved_count := by
  unfold load_from_db at h
  split at h
  · split at h
    next hfold => simp at h
    next s1 hfold =>
      rw [foldlM_saved_count (loadBranchStep s.db base)
        (loadBranchStep_saved_count s.db base) (load_branches s.db) s1 s' h]
      exact foldlM_saved_count loadCheckpointStep loadCheckpointStep_saved_count
        (load_checkpoints s.db) s s1 hfold
  · injection h with he
    rw [← he]

/-- Claim C9 (amended): after `load_from_db` reconstructs checkpoints and
branches from the persistence store into a fresh manager (empty saved-count
dict), the per-branch saved count is not restored for any loaded branch, so
the next growing `update_current_branch` call attempts persistence at
per-branch sequence number 0: when no branch-message rows exist for the
branch it persists the new messages at sequences 0, 1, ...; when a row is
already persisted at sequence 0 for the branch, the insert violates
`branch_messages`' `UNIQUE(branch_id, sequence)` constraint and the call
raises `sqlite3.IntegrityError`, persisting nothing. -/
theorem load_from_db_saved_count_reset (s : BMState) (base : List Message)
    (s' : BMState) (cur : String) (bd : BranchData) (cp : CheckpointData)
    (msgs : List Message)
    (hload : load_from_db s base = some s')
    (hempty : s.branch_saved_count = [])
    (hcur : s'.current_branch = some cur)
    (hbd : dictLookup s'.branches cur = some bd)
    (hcp : dictLookup s'.checkpoints bd.checkpoint_id = some cp)
    (hhist : s'.has_history = true)
    (hle : cp.message_index ≤ bd.messages.length)
    (hgrow : bd.messages.length < msgs.length) :
    s'.branch_saved_count = [] ∧
    (branchLog s'.db cur = [] →
      ∃ s'', update_current_branch s' msgs = some s'' ∧
        s''.db.branch_message_rows = s'.db.branch_message_rows ++
          appendedRows cur msgs bd.messages.length
            (msgs.length - bd.messages.length) 0) ∧
    ((∃ r ∈ s'.db.branch_message_rows, r.branch_id = cur ∧ r.sequence = 0) →
      update_current_branch s' msgs = none) := by
  have hsaved : s'.branch_saved_count = [] := by
    rw [load_from_db_preserves_saved_count s base s' hload, hempty]
  have hsc0 : (dictLookup s'.branch_saved_count cur).getD 0 = 0 := by
    rw [hsaved]
    rfl
  refine ⟨hsaved, ?_, ?_⟩
  · -- no rows for the branch yet: persistence starts at sequence 0
    intro hlogempty
    have hfresh : ∀ r ∈ s'.db.branch_message_rows, r.branch_id = cur →
        r.sequence < (dictLookup s'.branch_saved_count cur).getD 0 := by
      intro r hr hid
      have : ¬ (r.branch_id == cur) = true := by
        rw [branchLog] at hlogempty
        rw [List.filter_eq_nil_iff] at hlogempty
        exact hlogempty r hr
      rw [beq_iff_eq] at this
      exact absurd hid this
    have hfold := saveNewMessages_range' cur cp.message_index msgs
      (msgs.length - bd.messages.length) bd.messages.length s'.db
      ((dictLookup s'.branch_saved_count cur).getD 0) hle hfresh
    have hrun : update_current_branch s' msgs = some
        (BMState.mk s'.has_history s'.has_session s'.checkpoints
          (dictInsert s'.branches cur ⟨bd.checkpoint_id, bd.name, msgs⟩)
          s'.current_branch s'.checkpoint_counter s'.branch_counter
          (dictInsert s'.branch_saved_count cur
            ((dictLookup s'.branch_saved_count cur).getD 0 +
              (msgs.length - bd.messages.length)))
          (Db.mk s'.db.checkpoint_rows s'.db.branch_rows
            (s'.db.branch_message_rows ++ appendedRows cur msgs
              bd.messages.length (msgs.length - bd.messages.length)
              ((dictLookup s'.branch_saved_count cur).getD 0)))) := by
      simp only [update_current_branch, hcur, hbd, hcp]
      rw [if_pos ⟨hhist, hgrow⟩]
      rw [hfold]
    refine ⟨_, hrun, ?_⟩
    show s'.db.branch_message_rows ++ appendedRows cur msgs bd.messages.length
      (msgs.length - bd.messages.length)
      ((dictLookup s'.branch_saved_count cur).getD 0) = _
    rw [hsc0]
  · -- a row at sequence 0 already exists: the duplicate insert raises
    intro hex
    obtain ⟨r0, hr0mem, hr0id, hr0seq⟩ := hex
    have hany : s'.db.branch_message_rows.any
        (fun r => r.branch_id == cur && r.sequence == 0) = true := by
      rw [List.any_eq_true]
      refine ⟨r0, hr0mem, ?_⟩
      simp [hr0id, hr0seq]
    have hsavefail : save_branch_message s'.db cur 0
        (msgs.getD bd.messages.length default).role
        (msgs.getD bd.messages.length default).content = none := by
      simp [save_branch_message, hany]
    obtain ⟨m, hm⟩ : ∃ m, msgs.length - bd.messages.length = m + 1 :=
      ⟨_, (Nat.succ_pred_eq_of_pos (by omega)).symm⟩
    have hsnm : saveNewMessages s'.db cur cp.message_index msgs
        (List.range' bd.messages.length (msgs.length - bd.messages.length))
        ((dictLookup s'.branch_saved_count cur).getD 0) = none := by
      rw [hm, hsc0, List.range'_succ]
      simp only [saveNewMessages, List.foldlM_cons]
      rw [if_pos hle, hsavefail]
      rfl
    simp only [update_current_branch, hcur, hbd, hcp]
    rw [if_pos ⟨hhist, hgrow⟩]
    rw [hsnm]

/-- Counterexample to claim C9 as stated: at the reloaded state `sL9` a branch
message is already persisted at sequence 0 for the current branch, and the
next growing `update_current_branch` call does NOT persist its new message at
sequence 0 — the duplicate insert violates `UNIQUE(branch_id, sequence)`, the
call raises (`none`), and nothing is persisted. -/
theorem load_reset_duplicate_insert_cex :
    load_from_db sW9 baseW9 = some sL9 ∧
    sL9.branch_saved_count = [] ∧
    branchLog sL9.db "br_1_5" = [⟨"br_1_5", 0, "user", "x"⟩] ∧
    update_current_branch sL9 msgsW9 = none :=
  ⟨rfl, rfl, rfl, rfl⟩

/-- Witness for C9 (amended): the reloaded manager's saved count is empty, and
at the concrete reloaded state — which already holds a branch-message row at
sequence 0 — the next growing update raises instead of persisting. -/
theorem load_from_db_saved_count_reset_witness :
    load_from_db sW9 baseW9 = some sL9 ∧
    sW9.branch_saved_count = [] ∧
    sL9.has_history = true ∧
    (⟨"start", 1⟩ : CheckpointData).message_index ≤
      (⟨"cp_1", "alt", [⟨"user", "m0"⟩, ⟨"user", "x"⟩]⟩ :
        BranchData).messages.length ∧
    (sL9.branch_saved_count = [] ∧
      update_current_branch sL9 msgsW9 = none) :=
  ⟨rfl, rfl, rfl, by decide,
    (load_from_db_saved_count_reset sW9 baseW9 sL9 "br_1_5"
        ⟨"cp_1", "alt", [⟨"user", "m0"⟩, ⟨"user", "x"⟩]⟩ ⟨"start", 1⟩ msgsW9
        rfl rfl rfl rfl rfl rfl (by decide) (by decide)).1,
    (load_from_db_saved_count_reset sW9 baseW9 sL9 "br_1_5"
        ⟨"cp_1", "alt", [⟨"user", "m0"⟩, ⟨"user", "x"⟩]⟩ ⟨"start", 1⟩ msgsW9
        rfl rfl rfl rfl rfl rfl (by decide) (by decide)).2.2
      ⟨⟨"br_1_5", 0, "user", "x"⟩, by decide, rfl, rfl⟩⟩
